import Mathlib

/-!
The provisioner of terraform-provisioner-makefile: its decode, validate and apply paths.

A shallow embedding of `makefile/resource_provisioner.go`.

* Go `interface{}` values that a configuration can carry are the type `Value`.
  The dynamic types `[]interface{}` and `[]map[string]interface{}` are kept
  apart (`Value.list` and `Value.mapList`), because the type switch of
  `rawToJSON` tells them apart.
* A Go `map[string]interface{}` is an association list; the order of the list is
  the order in which one `range` loop visits the map, and keys are distinct.
  Values are trees: no map is shared between two places of a configuration.
* Go `error` values are their messages.
* The libraries the provisioner calls (`mapstructure`, `go-homedir`) are a parameter
  `Lib` of the embedding; the operating system is a parameter `Launcher`.
* The child's two output streams are copied by two goroutines. A run is described by the
  order in which their writes reach the sink; runs in which two writes to the sink overlap
  in time are not described.
-/

namespace makefile

/-- Values of Go type `interface{}` as they occur in a resource configuration. -/
inductive Value where
  | null
  | bool (b : Bool)
  | int (n : Int)
  | str (s : String)
  | list (xs : List Value)
  | map (m : List (String × Value))
  | mapList (ms : List (List (String × Value)))

/-- A Go `map[string]interface{}`. -/
abbrev Dict := List (String × Value)

/-- The message of the error `rawToJSON` creates with `fmt.Errorf`. -/
def errUnexpected : String := "unexpected input while parsing raw config to JSON"

mutual
/-- The function `rawToJSON`: the type switch has one case, `[]map[string]interface{}`;
every other dynamic type takes the `default` branch. -/
def rawToJSON : Value → Except String Value
  | .mapList [m] =>
    match rangeAssign m with
    | .error e => .error e
    | .ok m1 => .ok (.map m1)
  | .mapList _ => .error errUnexpected
  | raw => .ok raw
/-- The loop `for k, v := range s[0] { s[0][k], err = rawToJSON(v); ... }`: every entry is
visited once, its value is replaced by its normal form, and the first error ends the loop. -/
def rangeAssign : List (String × Value) → Except String (List (String × Value))
  | [] => .ok []
  | (k, v) :: rest =>
    match rawToJSON v with
    | .error e => .error e
    | .ok v1 =>
      match rangeAssign rest with
      | .error e => .error e
      | .ok rest1 => .ok ((k, v1) :: rest1)
end

/-! ## Go maps -/

/-- The map index expression `m[k]` with the comma-ok form: the value stored under `k`. -/
def mapIndex : Dict → String → Option Value
  | [], _ => none
  | (k1, v1) :: rest, k => if k1 = k then some v1 else mapIndex rest k

/-- The map assignment `m[k] = v`: an existing key keeps its place and gets the new value,
a new key is added. -/
def mapAssign : Dict → String → Value → Dict
  | [], k, v => [(k, v)]
  | (k1, v1) :: rest, k, v => if k1 = k then (k1, v) :: rest else (k1, v1) :: mapAssign rest k v

/-- The loop `for k, v := range src { m[k] = v }`. -/
def copyInto (m : Dict) (src : Dict) : Dict :=
  src.foldl (fun acc kv => mapAssign acc kv.1 kv.2) m

/-- The keys of a Go map are pairwise distinct. -/
def keysDistinct (m : Dict) : Prop := (m.map Prod.fst).Nodup

/-! ## The configuration record and the host's two views -/

/-- The struct `Makefile`; `Variables` has type `interface{}` and is `nil` in a fresh record. -/
structure Makefile where
  Directory : String
  Target : String
  Variables : Value

/-- The fields `Raw` and `Config` of `terraform.ResourceConfig`, the only ones the
provisioner reads. -/
structure ResourceConfig where
  Raw : Dict
  Config : Dict

/-- The two library calls of `decodeConfig`, which are not part of this repository:
`Decode` is `dec.Decode(m)` of the `mapstructure` decoder built with `ErrorUnused` and
`WeaklyTypedInput` over a fresh `Makefile` (its result is the record afterwards), and
`Expand` is `homedir.Expand`. -/
structure Lib where
  Decode : Dict → Except String Makefile
  Expand : String → Except String String

/-- The map `m` that `decodeConfig` hands to the decoder: the raw view copied first,
the interpolated view copied over it. -/
def mergedConfig (c : ResourceConfig) : Dict :=
  copyInto (copyInto [] c.Raw) c.Config

/-- The step `// Collect variables` of `decodeConfig`: only `c.Config` is consulted. -/
def collectVariables (c : ResourceConfig) (makeFile : Makefile) : Except String Makefile :=
  match mapIndex c.Config "variables" with
  | some vars =>
    match rawToJSON vars with
    | .error e => .error ("Error parsing the variables: " ++ e)
    | .ok v => .ok { makeFile with Variables := v }
  | none => .ok makeFile

/-- The method `decodeConfig`. (`mapstructure.NewDecoder` fails only when `Result` is not a
pointer, which it is here, so that error return is unreachable.) -/
def decodeConfig (lib : Lib) (c : ResourceConfig) : Except String Makefile :=
  match lib.Decode (mergedConfig c) with
  | .error e => .error e
  | .ok makeFile =>
    match collectVariables c makeFile with
    | .error e => .error e
    | .ok makeFile =>
      match lib.Expand makeFile.Directory with
      | .error e => .error e
      | .ok d => .ok { makeFile with Directory := d }

/-- The method `Validate`: the pair `(ws, es)`; `ws` is never appended to. -/
def Validate (lib : Lib) (c : ResourceConfig) : List String × List String :=
  match decodeConfig lib c with
  | .error e => ([], [e])
  | .ok m =>
    let es : List String := []
    let es := if m.Directory = "" then es ++ ["A directory is required."] else es
    let es := if m.Target = "" then es ++ ["A target is required."] else es
    ([], es)

/-! ## The build-tool invocation -/

/-- One byte of process output. -/
abbrev Byte := Fin 256

/-- The constant `maxBufSize`. -/
def maxBufSize : Nat := 8 * 1024

/-- Modelled from the spec: BoundedSink, the fixed-capacity sink that `Apply` obtains from
`circbuf.NewBuffer`; the buffer's code is not among the sources. It holds a capacity
and the stored bytes. -/
structure BoundedSink where
  capacity : Nat
  storedBytes : List Byte

/-- Modelled from the spec: `newBoundedSink(capacity)` of BoundedSink, an empty sink. -/
def newBoundedSink (capacity : Nat) : BoundedSink :=
  { capacity := capacity, storedBytes := [] }

/-- Modelled from the spec: `write(bytes) -> bytesWritten` of BoundedSink. It appends to the
internal sequence, drops the earliest bytes once the length would exceed the capacity, and
always reports success. -/
def BoundedSink.write (b : BoundedSink) (bytes : List Byte) : BoundedSink × Nat :=
  let all := b.storedBytes ++ bytes
  ({ b with storedBytes := all.drop (all.length - b.capacity) }, bytes.length)

/-- Modelled from the spec: the contents BoundedSink exposes (`output.Bytes()` in `Apply`). -/
def BoundedSink.contents (b : BoundedSink) : List Byte := b.storedBytes

/-- The two output streams of the child process. `Apply` gives each its own writer,
`cmd.Stdout = io.MultiWriter(output, pw)` and `cmd.Stderr = io.MultiWriter(output, pw)`, so
each stream is copied to the sink and to the pipe by a goroutine of its own. -/
inductive Stream where
  | stdout
  | stderr
  deriving DecidableEq

/-- What running the child process does, as far as `Apply` observes it.
`writes` is what the child writes, chunk by chunk and in the order in which it writes, each
chunk with the stream it goes to. `arrival` is the chunks in the order in which the calls
`output.Write` of the two copying goroutines take place, for a run in which these calls
follow one another; the sink is not synchronised, and a run in which two of them overlap is
outside this embedding. `piped` is the bytes in the order in which they reach the pipe.
`err` is the error of `cmd.Run()` (`none` for `nil`). -/
structure ProcResult where
  writes : List (Stream × List Byte)
  arrival : List (Stream × List Byte)
  piped : List Byte
  err : Option String

/-- The bytes of a list of chunks, in the order of the list. -/
def allBytes (chunks : List (Stream × List Byte)) : List Byte :=
  (chunks.map Prod.snd).flatten

/-- The bytes of one stream in a list of chunks. -/
def bytesOf (st : Stream) (chunks : List (Stream × List Byte)) : List Byte :=
  allBytes (chunks.filter (fun chunk => decide (chunk.1 = st)))

/-- Each copying goroutine hands the bytes of its stream to the sink completely and in
order. -/
def Delivered (p : ProcResult) : Prop :=
  ∀ st, bytesOf st p.arrival = bytesOf st p.writes

/-- The operating system: the result of running the command `name args...` in directory
`dir`. -/
abbrev Launcher := (dir : String) → (name : String) → (args : List String) → ProcResult

/-- The steps of `Apply` that are visible outside it, in program order. -/
inductive Event where
  /-- The call `io.Pipe()`. -/
  | pipe
  /-- The statement `go p.copyOutput(o, pr, copyDoneCh)`. -/
  | goCopyOutput
  /-- A call `o.Output(line)` made by `Apply` itself. -/
  | output (line : String)
  /-- The call `cmd.Run()` of `exec.Command(name, args...)` with `cmd.Dir = dir`. -/
  | run (dir : String) (name : String) (args : List String)
  /-- The call `pw.Close()`. -/
  | closePipe
  /-- The receive `<-copyDoneCh`: `copyOutput` has forwarded the lines of `stream`. -/
  | copyDone (stream : List Byte)

/-- An error `Apply` returns: the decode error as it is, or the value built by
`fmt.Errorf("Error running command '%s': %v. Output: %s", fullCommand, err, output.Bytes())`,
kept as its three arguments. -/
inductive ApplyError where
  | decode (msg : String)
  | command (fullCommand : String) (err : String) (output : List Byte)

/-- How a call of `Apply` ends: it returns (`none` is `nil`), or a type assertion fails and
the goroutine panics. -/
inductive Outcome where
  | returned (err : Option ApplyError)
  | panicked

/-- The loop `for k, v := range vars { makeArgs = append(makeArgs, fmt.Sprintf("%s=%s", k,
v.(string))) }`; `none` when the assertion `v.(string)` fails. -/
def appendVariables : List String → Dict → Option (List String)
  | acc, [] => some acc
  | acc, (k, .str s) :: rest => appendVariables (acc ++ [k ++ "=" ++ s]) rest
  | _, _ :: _ => none

/-- The block `// Format the variables into k=v pairs`; `none` when the assertion
`m.Variables.(map[string]interface{})` or an assertion `v.(string)` fails. -/
def makeArgs (m : Makefile) : Option (List String) :=
  match m.Variables with
  | .map vars => appendVariables ([] ++ [m.Target]) vars
  | _ => none

/-- The string `fmt.Sprintf("make %s %s", m.Target, strings.Join(makeArgs, " "))`. -/
def fullCommand (m : Makefile) (args : List String) : String :=
  "make " ++ m.Target ++ " " ++ String.intercalate " " args

/-- The sink after the chunks have been written to it one after the other, in the order of
the list. -/
def capture (b : BoundedSink) (chunks : List (List Byte)) : BoundedSink :=
  chunks.foldl (fun sink chunk => (sink.write chunk).1) b

/-- The method `Apply`: how it ends, and the steps it took. -/
def Apply (lib : Lib) (launch : Launcher) (c : ResourceConfig) : Outcome × List Event :=
  match decodeConfig lib c with
  | .error e => (.returned (some (.decode e)), [])
  | .ok m =>
    let started := [Event.pipe, Event.goCopyOutput]
    match makeArgs m with
    | none => (.panicked, started)
    | some args =>
      let full := fullCommand m args
      let proc := launch m.Directory "make" args
      let output := capture (newBoundedSink maxBufSize) (proc.arrival.map Prod.snd)
      let steps := started ++ [Event.output ("Executing: " ++ full),
        Event.run m.Directory "make" args, Event.closePipe, Event.copyDone proc.piped]
      match proc.err with
      | some err => (.returned (some (.command full err output.contents)), steps)
      | none => (.returned none, steps)

/-- The argument vectors of the child processes started in a run of `Apply`. -/
def spawned : List Event → List (List String)
  | [] => []
  | .run _ _ args :: rest => args :: spawned rest
  | _ :: rest => spawned rest

/-- The lines `Apply` itself sent to the output sink. -/
def emitted : List Event → List String
  | [] => []
  | .output line :: rest => line :: emitted rest
  | _ :: rest => emitted rest

/-! ## The libraries, for concrete runs

`mapstructure` and `go-homedir` are dependencies, not part of the repository. The general
theorems below hold for every `Lib`; the following instance is used to run the code on
concrete configurations. -/

/-- The Go name of the dynamic type of a value. -/
def typeName : Value → String
  | .null => "nil"
  | .bool _ => "bool"
  | .int _ => "int"
  | .str _ => "string"
  | .list _ => "[]interface {}"
  | .map _ => "map[string]interface {}"
  | .mapList _ => "[]map[string]interface {}"

/-- One rune under the case folding of `strings.EqualFold`, as far as lower-case ASCII
letters are concerned: an upper-case ASCII letter folds to its lower-case letter, and the
only other runes that fold to an ASCII letter are the Kelvin sign (to `k`) and the long s
(to `s`). -/
def foldRune (c : Char) : Char :=
  if c = Char.ofNat 0x212A then 'k'
  else if c = Char.ofNat 0x17F then 's'
  else c.toLower

/-- The test `strings.EqualFold(key, field)` for a field name `field` made of lower-case ASCII
letters, which the three tags of `Makefile` are. -/
def equalFold (key field : String) : Bool :=
  decide (key.data.map foldRune = field.data.map foldRune)

/-- The key of the input that the decoder uses for the field tagged `name`: the key `name`
itself when the input has it, and otherwise a key that equals `name` under case folding (the
decoder takes the first one its loop over the keys meets). -/
def fieldKey (m : Dict) (name : String) : Option String :=
  match mapIndex m name with
  | some _ => some name
  | none => (m.map Prod.fst).find? (fun k => equalFold k name)

/-- The value the decoder decodes into the field tagged `name`, when the input has one. -/
def fieldValue (m : Dict) (name : String) : Option Value :=
  match fieldKey m name with
  | some k => mapIndex m k
  | none => none

/-- Decoding into a `string` field with `WeaklyTypedInput`: `nil` sets nothing, strings are
taken as they are, booleans become `1`/`0`, integers their decimal form, and anything else
is an error. -/
def weakString (field : String) : Value → Except String (Option String)
  | .null => .ok none
  | .str s => .ok (some s)
  | .bool b => .ok (some (if b then "1" else "0"))
  | .int n => .ok (some (toString n))
  | v => .error ("\x27" ++ field ++ "\x27 expected type \x27string\x27, got unconvertible type \x27"
      ++ typeName v ++ "\x27")

/-- The errors and the value of the `string` field tagged `name`. -/
def stringField (m : Dict) (name : String) : List String × String :=
  match fieldValue m name with
  | none => ([], "")
  | some v =>
    match weakString name v with
    | .ok (some s) => ([], s)
    | .ok none => ([], "")
    | .error e => ([e], "")

/-- Insertion of a string into a sorted list, for `sort.Strings`. -/
def insertString (s : String) : List String → List String
  | [] => [s]
  | t :: rest => if t < s then t :: insertString s rest else s :: t :: rest

/-- The function `sort.Strings`. -/
def sortStrings (l : List String) : List String :=
  l.foldr insertString []

/-- The keys of the input that the decoder uses for the three fields of `Makefile`. -/
def usedKeys (m : Dict) : List String :=
  [fieldKey m "directory", fieldKey m "target", fieldKey m "variables"].filterMap id

/-- The error for keys of the input that no field uses (`ErrorUnused`). -/
def unusedKeys (m : Dict) : List String :=
  match sortStrings ((m.map Prod.fst).filter (fun k => k ∉ usedKeys m)) with
  | [] => []
  | ks => ["\x27\x27 has invalid keys: " ++ String.intercalate ", " ks]

/-- The decoder of `decodeConfig` on the merged map: each of the three tagged fields is
filled from the key of its name, or failing that from a key that differs from it in case
only; the `interface{}` field takes the value as it is; keys that no field uses are an error;
and all errors are reported together, in one message. -/
def mapstructureDecode (m : Dict) : Except String Makefile :=
  let d := stringField m "directory"
  let t := stringField m "target"
  let errs := d.1 ++ t.1 ++ unusedKeys m
  if errs.isEmpty then
    .ok { Directory := d.2, Target := t.2, Variables := (fieldValue m "variables").getD .null }
  else
    .error (toString errs.length ++ " error(s) decoding:\n\n"
      ++ String.intercalate "\n" (sortStrings (errs.map (fun e => "* " ++ e))))

/-- The path elements between the separators `/` of a path. -/
def splitSlash : List Char → List (List Char)
  | [] => [[]]
  | c :: rest =>
    match splitSlash rest with
    | [] => [[]]
    | part :: parts => if c = '/' then [] :: part :: parts else (c :: part) :: parts

/-- One path element in `filepath.Clean`, the elements kept so far being `kept` (last one
first): empty elements and `.` are dropped, `..` removes the element before it, is dropped at
the root, and is kept at the start of a relative path. -/
def cleanStep (rooted : Bool) (kept : List (List Char)) (part : List Char) : List (List Char) :=
  if part = [] ∨ part = ['.'] then kept
  else if part = ['.', '.'] then
    match kept with
    | top :: below => if top = ['.', '.'] then part :: kept else below
    | [] => if rooted then [] else [part]
  else part :: kept

/-- The function `filepath.Clean` for the separator `/`. -/
def filepathClean (path : String) : String :=
  let rooted := decide (path.data.head? = some '/')
  let kept := (splitSlash path.data).foldl (cleanStep rooted) []
  let out := (if rooted then "/" else "") ++ String.intercalate "/" (kept.reverse.map String.mk)
  if out = "" then "." else out

/-- The call `filepath.Join(dir, rest)`: the elements from the first non-empty one on, joined
by the separator and cleaned. -/
def filepathJoin (dir rest : String) : String :=
  if dir ≠ "" then filepathClean (dir ++ "/" ++ rest)
  else if rest ≠ "" then filepathClean rest
  else ""

/-- The function `homedir.Expand`, given the result `home` of `homedir.Dir()`: the empty path
and paths that do not start with `~` are returned unchanged, `~user` is an error, and for `~`
and `~/...` the result is `filepath.Join(dir, path[1:])`. -/
def homedirExpand (home : Except String String) (path : String) : Except String String :=
  match path.data with
  | [] => .ok path
  | c0 :: rest =>
    if c0 ≠ '~' then .ok path
    else
      match rest with
      | c1 :: _ =>
        if c1 ≠ '/' ∧ c1 ≠ '\\' then .error "cannot expand user-specific home dir"
        else home.map (fun dir => filepathJoin dir (String.mk rest))
      | [] => home.map (fun dir => filepathJoin dir (String.mk rest))

/-- The libraries on a machine whose home directory resolves to `home`. -/
def stdLib (home : Except String String) : Lib :=
  { Decode := mapstructureDecode, Expand := homedirExpand home }

/-- A child process that writes nothing and exits with status 0. -/
def quietSuccess : Launcher :=
  fun _ _ _ => { writes := [], arrival := [], piped := [], err := none }

/-- A child process that writes the given chunks to its standard output, which reach the sink
and the pipe as they are, and exits with status 2. -/
def failingWith (chunks : List (List Byte)) : Launcher :=
  fun _ _ _ =>
    { writes := chunks.map (fun chunk => (Stream.stdout, chunk)),
      arrival := chunks.map (fun chunk => (Stream.stdout, chunk)),
      piped := chunks.flatten, err := some "exit status 2" }

/-- A child process that writes the byte 1 to its standard output, then the byte 2 to its
standard error, and exits with status 2; the goroutine copying the standard error is the
first to write to the sink. -/
def overtaken : Launcher :=
  fun _ _ _ =>
    { writes := [(Stream.stdout, [1]), (Stream.stderr, [2])],
      arrival := [(Stream.stderr, [2]), (Stream.stdout, [1])],
      piped := [2, 1], err := some "exit status 2" }

/-- A child process that writes 12000 bytes 1 to its standard output, then 8000 bytes 2 to
its standard error, and exits with status 2; the chunks reach the sink in that order. -/
def flooding : Launcher :=
  fun _ _ _ =>
    { writes := [(Stream.stdout, List.replicate 12000 1), (Stream.stderr, List.replicate 8000 2)],
      arrival := [(Stream.stdout, List.replicate 12000 1), (Stream.stderr, List.replicate 8000 2)],
      piped := List.replicate 12000 1 ++ List.replicate 8000 2, err := some "exit status 2" }

/-! ## Configurations used below -/

/-- The configuration of the test `TestResourceProvider_Validate_good`. -/
def goodConfig : ResourceConfig :=
  let m : Dict := [("directory", .str "~/infrastructure"), ("target", .str "provision"),
    ("variables", .list [.str "foo: bar"])]
  { Raw := m, Config := m }

/-- The configuration of the test `TestResourceProvider_Validate_missing`. -/
def missingConfig : ResourceConfig := { Raw := [], Config := [] }

/-- The mapping `{a: 1, b: [{c: 2}]}`, the inner sequence being a sequence of mappings. -/
def nestedExample : Dict := [("a", .int 1), ("b", .mapList [[("c", .int 2)]])]

/-- A sequence in the sense of the specification: a Go slice, of any element type. -/
def isSequence : Value → Bool
  | .list _ => true
  | .mapList _ => true
  | _ => false

/-- A sequence of mappings whose length is not one, at the top or as a value of a
singleton-wrapped mapping, at any depth of such wrappings. -/
inductive Malformed : Value → Prop where
  | here (ms : List Dict) : ms.length ≠ 1 → Malformed (.mapList ms)
  | inside (m : Dict) (k : String) (v : Value) : (k, v) ∈ m → Malformed v →
      Malformed (.mapList [m])

/-- An entry of the result of the loop over a mapping: same key, normalised value. -/
def Normalises (kv kv1 : String × Value) : Prop :=
  kv1.1 = kv.1 ∧ rawToJSON kv.2 = .ok kv1.2

/-- A configuration with a directory and a target and no `variables` key. -/
def noVariablesConfig : ResourceConfig :=
  let m : Dict := [("directory", .str "site"), ("target", .str "all")]
  { Raw := m, Config := m }

/-- A configuration whose variables are the singleton-wrapped mapping `[{env: "prod"}]`. -/
def prodConfig : ResourceConfig :=
  let m : Dict := [("directory", .str "site"), ("target", .str "all"),
    ("variables", .mapList [[("env", .str "prod")]])]
  { Raw := m, Config := m }

/-- A configuration whose variables are a two-element sequence of mappings. -/
def twoMapsConfig : ResourceConfig :=
  let m : Dict := [("directory", .str "site"), ("target", .str "all"),
    ("variables", .mapList [[("a", .str "1")], [("b", .str "2")]])]
  { Raw := m, Config := m }

/-- A configuration whose `variables` key occurs in the raw view only. -/
def rawOnlyConfig : ResourceConfig :=
  { Raw := [("variables", .mapList [[("a", .str "1")]])], Config := [] }

/-- A configuration whose raw view alone has `variables`, a two-element sequence of
mappings. -/
def rawOnlyTwoMapsConfig : ResourceConfig :=
  { Raw := [("variables", .mapList [[("a", .str "1")], [("b", .str "2")]])], Config := [] }

/-- The argument `key=value` for a variable with a string value. -/
def assignment (kv : String × String) : String := kv.1 ++ "=" ++ kv.2

/-- A mapping of string keys to string values, as a `map[string]interface{}`. -/
def stringVariables (svars : List (String × String)) : Value :=
  .map (svars.map (fun kv => (kv.1, Value.str kv.2)))

/-- A field of the merged configuration is removed (no key is its name, in any case of the
letters) or empty (its key holds the empty string or `nil`). -/
def fieldEmpty (m : Dict) (key : String) : Prop :=
  (∀ k ∈ m.map Prod.fst, equalFold k key = false)
    ∨ mapIndex m key = some (.str "") ∨ mapIndex m key = some .null

/-- The last `min (length s) c` bytes of `s`. -/
def trailing (c : Nat) (s : List Byte) : List Byte := s.drop (s.length - c)

/-- A configuration whose directory key is written with a capital letter. -/
def capitalKeyConfig : ResourceConfig :=
  let m : Dict := [("Directory", .str "site"), ("target", .str "all")]
  { Raw := m, Config := m }

/-- A configuration with a variable whose value is a number. -/
def countConfig : ResourceConfig :=
  let m : Dict := [("directory", .str "site"), ("target", .str "all"),
    ("variables", .mapList [[("count", .int 3)]])]
  { Raw := m, Config := m }

/-! ## Unfolding `rawToJSON` -/

theorem rawToJSON_single (m : Dict) :
    rawToJSON (.mapList [m]) =
      match rangeAssign m with
      | .error e => .error e
      | .ok m1 => .ok (.map m1) := rfl

theorem rawToJSON_empty : rawToJSON (.mapList []) = .error errUnexpected := rfl

theorem rawToJSON_many (m1 m2 : Dict) (ms : List Dict) :
    rawToJSON (.mapList (m1 :: m2 :: ms)) = .error errUnexpected := rfl

theorem rangeAssign_nil : rangeAssign [] = .ok [] := rfl

theorem rangeAssign_cons (k : String) (v : Value) (rest : Dict) :
    rangeAssign ((k, v) :: rest) =
      match rawToJSON v with
      | .error e => .error e
      | .ok v1 =>
        match rangeAssign rest with
        | .error e => .error e
        | .ok rest1 => .ok ((k, v1) :: rest1) := rfl

/-- A value whose dynamic type is not `[]map[string]interface{}` takes the `default`
branch. -/
theorem rawToJSON_default (x : Value) (h : ∀ ms, x ≠ .mapList ms) : rawToJSON x = .ok x := by
  cases x with
  | mapList ms => exact absurd rfl (h ms)
  | _ => rfl

mutual
/-- Every error of `rawToJSON` is the one created in its length check. -/
theorem rawToJSON_error_eq : ∀ (x : Value) (e : String),
    rawToJSON x = .error e → e = errUnexpected
  | .mapList [], e, h => by
    rw [rawToJSON_empty] at h
    exact (Except.error.inj h).symm
  | .mapList (m1 :: m2 :: ms), e, h => by
    rw [rawToJSON_many] at h
    exact (Except.error.inj h).symm
  | .mapList [m], e, h => by
    rw [rawToJSON_single] at h
    cases hr : rangeAssign m with
    | error e1 =>
      rw [hr] at h
      have := rangeAssign_error_eq m e1 hr
      exact (Except.error.inj h) ▸ this
    | ok m1 => rw [hr] at h; cases h
  | .null, e, h => by cases h
  | .bool _, e, h => by cases h
  | .int _, e, h => by cases h
  | .str _, e, h => by cases h
  | .list _, e, h => by cases h
  | .map _, e, h => by cases h
theorem rangeAssign_error_eq : ∀ (m : Dict) (e : String),
    rangeAssign m = .error e → e = errUnexpected
  | [], e, h => by cases h
  | (k, v) :: rest, e, h => by
    rw [rangeAssign_cons] at h
    cases hv : rawToJSON v with
    | error e1 =>
      rw [hv] at h
      have := rawToJSON_error_eq v e1 hv
      exact (Except.error.inj h) ▸ this
    | ok v1 =>
      rw [hv] at h
      cases hr : rangeAssign rest with
      | error e2 =>
        rw [hr] at h
        have := rangeAssign_error_eq rest e2 hr
        exact (Except.error.inj h) ▸ this
      | ok rest1 => rw [hr] at h; cases h
end

/-! ## The loop over one mapping -/

theorem rangeAssign_ok (m : Dict) : ∀ m1, rangeAssign m = .ok m1 → List.Forall₂ Normalises m m1 := by
  induction m with
  | nil =>
    intro m1 h
    rw [rangeAssign_nil] at h
    cases h
    exact List.Forall₂.nil
  | cons kv rest ih =>
    obtain ⟨k, v⟩ := kv
    intro m1 h
    rw [rangeAssign_cons] at h
    cases hv : rawToJSON v with
    | error e => rw [hv] at h; cases h
    | ok v1 =>
      rw [hv] at h
      cases hr : rangeAssign rest with
      | error e => rw [hr] at h; cases h
      | ok rest1 =>
        rw [hr] at h
        cases h
        exact List.Forall₂.cons ⟨rfl, hv⟩ (ih rest1 hr)

theorem rangeAssign_total (m : Dict) (h : ∀ kv ∈ m, ∃ y, rawToJSON kv.2 = .ok y) :
    ∃ m1, rangeAssign m = .ok m1 := by
  induction m with
  | nil => exact ⟨[], rfl⟩
  | cons kv rest ih =>
    obtain ⟨k, v⟩ := kv
    obtain ⟨y, hy⟩ := h (k, v) (List.mem_cons_self _ _)
    obtain ⟨rest1, hr⟩ := ih (fun kv hkv => h kv (List.mem_cons_of_mem _ hkv))
    refine ⟨(k, y) :: rest1, ?_⟩
    rw [rangeAssign_cons, hy, hr]

theorem rangeAssign_fails (m : Dict) (k : String) (v : Value) (e : String)
    (hmem : (k, v) ∈ m) (hv : rawToJSON v = .error e) :
    rangeAssign m = .error errUnexpected := by
  induction m with
  | nil => cases hmem
  | cons kv rest ih =>
    obtain ⟨k0, v0⟩ := kv
    cases hr : rangeAssign ((k0, v0) :: rest) with
    | error e1 => rw [rangeAssign_error_eq _ e1 hr]
    | ok m1 =>
      exfalso
      rw [rangeAssign_cons] at hr
      cases h0 : rawToJSON v0 with
      | error e0 => rw [h0] at hr; cases hr
      | ok v1 =>
        rw [h0] at hr
        cases hrest : rangeAssign rest with
        | error e2 => rw [hrest] at hr; cases hr
        | ok rest1 =>
          rcases List.mem_cons.mp hmem with heq | htail
          · cases heq
            rw [hv] at h0
            cases h0
          · rw [ih htail] at hrest
            cases hrest

theorem forall₂_keys (m m1 : Dict) (h : List.Forall₂ Normalises m m1) :
    m1.map Prod.fst = m.map Prod.fst := by
  induction h with
  | nil => rfl
  | cons hab _ ih => simp [List.map_cons, ih, hab.1]

/-- A result of `rawToJSON` never has the dynamic type `[]map[string]interface{}`. -/
theorem rawToJSON_result (x y : Value) (h : rawToJSON x = .ok y) : ∀ ms, y ≠ .mapList ms := by
  intro ms hy
  subst hy
  cases x with
  | mapList xs =>
    match xs, h with
    | [], h => rw [rawToJSON_empty] at h; cases h
    | [m], h =>
      rw [rawToJSON_single] at h
      cases hr : rangeAssign m with
      | error e => rw [hr] at h; cases h
      | ok m1 => rw [hr] at h; cases h
    | m1 :: m2 :: rest, h => rw [rawToJSON_many] at h; cases h
  | null => cases h
  | bool _ => cases h
  | int _ => cases h
  | str _ => cases h
  | list _ => cases h
  | map _ => cases h

/-! ## Claims about `rawToJSON` -/

/-- C1. For every mapping `m`, `rawToJSON` of the one-element sequence of mappings `[m]`
returns, when normalising every value of `m` succeeds, a mapping with exactly the keys of `m`
(in the same places) in which every value `v` is replaced by the result of `rawToJSON v`, so
the unwrapping reaches every nesting depth; and `[{a: 1, b: [{c: 2}]}]` yields
`{a: 1, b: {c: 2}}`. -/
theorem rawToJSON_unwraps_singleton (m : Dict)
    (h : ∀ kv ∈ m, ∃ y, rawToJSON kv.2 = .ok y) :
    (∃ m1, rawToJSON (.mapList [m]) = .ok (.map m1)
        ∧ m1.map Prod.fst = m.map Prod.fst
        ∧ List.Forall₂ Normalises m m1)
      ∧ rawToJSON (.mapList [nestedExample])
          = .ok (.map [("a", .int 1), ("b", .map [("c", .int 2)])]) := by
  refine ⟨?_, rfl⟩
  obtain ⟨m1, hm1⟩ := rangeAssign_total m h
  have hall := rangeAssign_ok m m1 hm1
  refine ⟨m1, ?_, forall₂_keys m m1 hall, hall⟩
  rw [rawToJSON_single, hm1]

/-- C1, at the mapping `{a: 1, b: [{c: 2}]}`: both values normalise, and the result is a
mapping with the keys `a` and `b`. -/
theorem rawToJSON_unwraps_singleton_witness :
    (∀ kv ∈ nestedExample, ∃ y, rawToJSON kv.2 = .ok y)
      ∧ ((∃ m1, rawToJSON (.mapList [nestedExample]) = .ok (.map m1)
          ∧ m1.map Prod.fst = nestedExample.map Prod.fst
          ∧ List.Forall₂ Normalises nestedExample m1)
        ∧ rawToJSON (.mapList [nestedExample])
          = .ok (.map [("a", .int 1), ("b", .map [("c", .int 2)])])) :=
  have h : ∀ kv ∈ nestedExample, ∃ y, rawToJSON kv.2 = .ok y := by
    intro kv hkv
    simp only [nestedExample, List.mem_cons, List.mem_singleton, List.not_mem_nil, or_false] at hkv
    rcases hkv with rfl | rfl
    · exact ⟨_, rfl⟩
    · exact ⟨.map [("c", .int 2)], rfl⟩
  ⟨h, rawToJSON_unwraps_singleton nestedExample h⟩

/-- C2, as stated, fails: a two-element sequence and an empty sequence whose dynamic type is
`[]interface{}` are returned unchanged, without an error, also as a value inside a
singleton-wrapped mapping. -/
theorem rawToJSON_accepts_plain_sequences :
    rawToJSON (.list [.str "a", .str "b"]) = .ok (.list [.str "a", .str "b"])
      ∧ rawToJSON (.list []) = .ok (.list [])
      ∧ rawToJSON (.mapList [[("k", .list [.str "a", .str "b"])]])
          = .ok (.map [("k", .list [.str "a", .str "b"])]) :=
  ⟨rfl, rfl, rfl⟩

/-- C2, amended. For every input that is a sequence of mappings with zero elements or with
more than one element, `rawToJSON` fails with its error instead of returning a value, and the
same holds when such a sequence occurs as a value inside a singleton-wrapped mapping, at any
depth of such wrappings. -/
theorem rawToJSON_rejects_malformed (x : Value) (h : Malformed x) :
    rawToJSON x = .error errUnexpected := by
  induction h with
  | here ms hlen =>
    match ms, hlen with
    | [], _ => rfl
    | [m], hlen => exact absurd rfl hlen
    | m1 :: m2 :: rest, _ => rfl
  | inside m k v hmem _ ih =>
    rw [rawToJSON_single, rangeAssign_fails m k v _ hmem ih]

/-- C2, amended, at a two-element sequence of mappings that is the value of key `vars` in a
singleton-wrapped mapping. -/
theorem rawToJSON_rejects_malformed_witness :
    Malformed (.mapList [[("vars", .mapList [[("a", .str "1")], [("b", .str "2")]])]])
      ∧ rawToJSON (.mapList [[("vars", .mapList [[("a", .str "1")], [("b", .str "2")]])]])
          = .error errUnexpected :=
  have h : Malformed (.mapList [[("vars", .mapList [[("a", .str "1")], [("b", .str "2")]])]]) :=
    Malformed.inside _ "vars" (.mapList [[("a", .str "1")], [("b", .str "2")]])
      (List.mem_singleton.mpr rfl) (Malformed.here _ (by decide))
  ⟨h, rawToJSON_rejects_malformed _ h⟩

/-- C9. `rawToJSON` is idempotent: on a value that is not a sequence it succeeds and returns
the value unchanged, and whenever it succeeds on `x` with result `y`, it succeeds on `y` and
returns `y`. -/
theorem rawToJSON_idempotent (x y : Value) :
    (isSequence x = false → rawToJSON x = .ok x)
      ∧ (rawToJSON x = .ok y → rawToJSON y = .ok y) := by
  constructor
  · intro hx
    apply rawToJSON_default
    intro ms hms
    subst hms
    cases hx
  · intro h
    exact rawToJSON_default y (rawToJSON_result x y h)

/-- C9, at the string `"bar"` and at the wrapped mapping `[{a: 1, b: [{c: 2}]}]` with its
normal form. -/
theorem rawToJSON_idempotent_witness :
    rawToJSON (.str "bar") = .ok (.str "bar")
      ∧ rawToJSON (.map [("a", .int 1), ("b", .map [("c", .int 2)])])
          = .ok (.map [("a", .int 1), ("b", .map [("c", .int 2)])]) :=
  ⟨(rawToJSON_idempotent (.str "bar") .null).1 rfl,
   (rawToJSON_idempotent (.mapList [nestedExample])
      (.map [("a", .int 1), ("b", .map [("c", .int 2)])])).2 rfl⟩

/-! ## Go maps: reading after writing -/

theorem mapIndex_mapAssign_same (m : Dict) (k : String) (v : Value) :
    mapIndex (mapAssign m k v) k = some v := by
  induction m with
  | nil => simp [mapAssign, mapIndex]
  | cons kv rest ih =>
    obtain ⟨k1, v1⟩ := kv
    by_cases hk : k1 = k
    · simp [mapAssign, mapIndex, hk]
    · simp [mapAssign, mapIndex, hk, ih]

theorem mapIndex_mapAssign_other (m : Dict) (k k1 : String) (v : Value) (hne : k1 ≠ k) :
    mapIndex (mapAssign m k1 v) k = mapIndex m k := by
  induction m with
  | nil => simp [mapAssign, mapIndex, hne]
  | cons kv rest ih =>
    obtain ⟨k2, v2⟩ := kv
    by_cases hk : k2 = k1
    · subst hk
      simp [mapAssign, mapIndex, hne]
    · by_cases hk2 : k2 = k
      · subst hk2
        simp [mapAssign, mapIndex, hk]
      · simp [mapAssign, mapIndex, hk, hk2, ih]

theorem mapIndex_copyInto_absent (src : Dict) : ∀ (m : Dict) (k : String),
    k ∉ src.map Prod.fst → mapIndex (copyInto m src) k = mapIndex m k := by
  induction src with
  | nil => intro m k _; rfl
  | cons kv rest ih =>
    obtain ⟨k1, v1⟩ := kv
    intro m k hk
    have hne : k1 ≠ k := fun h => hk (by simp [h])
    have hrest : k ∉ rest.map Prod.fst := fun h => hk (by simp [h])
    show mapIndex (copyInto (mapAssign m k1 v1) rest) k = mapIndex m k
    rw [ih _ k hrest, mapIndex_mapAssign_other m k k1 v1 hne]

theorem mapIndex_copyInto_present (src : Dict) : ∀ (m : Dict) (k : String) (v : Value),
    keysDistinct src → mapIndex src k = some v → mapIndex (copyInto m src) k = some v := by
  induction src with
  | nil => intro m k v _ h; cases h
  | cons kv rest ih =>
    obtain ⟨k1, v1⟩ := kv
    intro m k v hd h
    have hd1 : k1 ∉ rest.map Prod.fst ∧ keysDistinct rest := by
      simpa [keysDistinct] using hd
    show mapIndex (copyInto (mapAssign m k1 v1) rest) k = some v
    by_cases hk : k1 = k
    · subst hk
      have hv : v1 = v := by simpa [mapIndex] using h
      subst hv
      rw [mapIndex_copyInto_absent rest _ k1 hd1.1, mapIndex_mapAssign_same]
    · have hrest : mapIndex rest k = some v := by simpa [mapIndex, hk] using h
      exact ih _ k v hd1.2 hrest

/-! ## Claims about `decodeConfig` and `Validate` -/

/-- C6, as stated, fails: when the `variables` key is present in the raw view only, the
merged configuration has it, `rawToJSON` of its value is the unwrapped mapping, and yet
`decodeConfig` succeeds with the value left as it was decoded; and where `rawToJSON` fails on
that value, `decodeConfig` still succeeds. -/
theorem decodeConfig_skips_raw_only_variables :
    mapIndex (mergedConfig rawOnlyConfig) "variables" = some (.mapList [[("a", .str "1")]])
      ∧ rawToJSON (.mapList [[("a", .str "1")]]) = .ok (.map [("a", .str "1")])
      ∧ decodeConfig (stdLib (.ok "/home/tf")) rawOnlyConfig
          = .ok ⟨"", "", .mapList [[("a", .str "1")]]⟩
      ∧ Value.mapList [[("a", .str "1")]] ≠ Value.map [("a", .str "1")]
      ∧ mapIndex (mergedConfig rawOnlyTwoMapsConfig) "variables"
          = some (.mapList [[("a", .str "1")], [("b", .str "2")]])
      ∧ rawToJSON (.mapList [[("a", .str "1")], [("b", .str "2")]]) = .error errUnexpected
      ∧ decodeConfig (stdLib (.ok "/home/tf")) rawOnlyTwoMapsConfig
          = .ok ⟨"", "", .mapList [[("a", .str "1")], [("b", .str "2")]]⟩ :=
  ⟨rfl, rfl, rfl, Value.noConfusion, rfl, rfl, rfl⟩

theorem decodeConfig_ok_inv (lib : Lib) (c : ResourceConfig) (m : Makefile)
    (h : decodeConfig lib c = .ok m) :
    ∃ mk, lib.Decode (mergedConfig c) = .ok mk ∧ m.Target = mk.Target
      ∧ lib.Expand mk.Directory = .ok m.Directory := by
  unfold decodeConfig at h
  cases hd : lib.Decode (mergedConfig c) with
  | error e => rw [hd] at h; cases h
  | ok mk =>
    rw [hd] at h
    dsimp only at h
    have hcv : ∃ v, collectVariables c mk = .error v ∨
        ∃ w, collectVariables c mk = .ok { mk with Variables := w } := by
      unfold collectVariables
      cases mapIndex c.Config "variables" with
      | none => exact ⟨"", Or.inr ⟨mk.Variables, rfl⟩⟩
      | some vars =>
        dsimp only
        cases rawToJSON vars with
        | error e => exact ⟨_, Or.inl rfl⟩
        | ok v => exact ⟨"", Or.inr ⟨v, rfl⟩⟩
    obtain ⟨v, hv | ⟨w, hw⟩⟩ := hcv
    · rw [hv] at h; cases h
    · rw [hw] at h
      dsimp only at h
      cases he : lib.Expand mk.Directory with
      | error e => rw [he] at h; cases h
      | ok d =>
        rw [he] at h
        cases h
        exact ⟨mk, rfl, rfl, he⟩

theorem mapIndex_mem_keys (m : Dict) (k : String) (v : Value) (h : mapIndex m k = some v) :
    k ∈ m.map Prod.fst := by
  induction m with
  | nil => cases h
  | cons kv rest ih =>
    obtain ⟨k1, v1⟩ := kv
    by_cases hk : k1 = k
    · simp [hk]
    · have : mapIndex rest k = some v := by simpa [mapIndex, hk] using h
      simp [ih this]

theorem fieldValue_removed (m : Dict) (name : String) (hself : equalFold name name = true)
    (h : ∀ k ∈ m.map Prod.fst, equalFold k name = false) : fieldValue m name = none := by
  have hidx : mapIndex m name = none := by
    cases hv : mapIndex m name with
    | none => rfl
    | some v =>
      have := h name (mapIndex_mem_keys m name v hv)
      rw [hself] at this
      cases this
  have hfind : (m.map Prod.fst).find? (fun k => equalFold k name) = none := by
    rw [List.find?_eq_none]
    intro k hk
    simp [h k hk]
  unfold fieldValue fieldKey
  rw [hidx]
  dsimp only
  rw [hfind]

theorem fieldValue_present (m : Dict) (name : String) (v : Value)
    (h : mapIndex m name = some v) : fieldValue m name = some v := by
  unfold fieldValue fieldKey
  rw [h]
  dsimp only
  rw [h]

theorem stringField_empty (m : Dict) (name : String) (hself : equalFold name name = true)
    (h : fieldEmpty m name) : (stringField m name).2 = "" := by
  unfold stringField
  rcases h with h | h | h
  · rw [fieldValue_removed m name hself h]
  · rw [fieldValue_present m name _ h]
    rfl
  · rw [fieldValue_present m name _ h]
    rfl

theorem mapstructureDecode_ok_inv (m : Dict) (mk : Makefile)
    (h : mapstructureDecode m = .ok mk) :
    mk.Directory = (stringField m "directory").2
      ∧ mk.Target = (stringField m "target").2
      ∧ mk.Variables = (fieldValue m "variables").getD .null := by
  unfold mapstructureDecode at h
  dsimp only at h
  split at h
  · cases h
    exact ⟨rfl, rfl, rfl⟩
  · cases h

theorem mapIndex_none_keys (m : Dict) (k : String) (h : mapIndex m k = none) :
    k ∉ m.map Prod.fst := by
  induction m with
  | nil => simp
  | cons kv rest ih =>
    obtain ⟨k1, v1⟩ := kv
    by_cases hk : k1 = k
    · simp [mapIndex, hk] at h
    · have hrest : mapIndex rest k = none := by simpa [mapIndex, hk] using h
      simp [ih hrest, Ne.symm hk]

theorem collectVariables_absent (c : ResourceConfig) (mk : Makefile)
    (h : mapIndex c.Config "variables" = none) : collectVariables c mk = .ok mk := by
  unfold collectVariables
  rw [h]

theorem homedirExpand_empty (home : Except String String) :
    homedirExpand home "" = .ok "" := rfl

/-- C6, amended. For every configuration in which a `variables` key is present in the
interpolated view: its value there is also its value in the merged configuration; whenever
`decodeConfig` succeeds, the resulting variables are `rawToJSON` of that value; `decodeConfig`
fails whenever `rawToJSON` fails on that value; and it succeeds, with exactly those variables,
when the decoder, `rawToJSON` and the home expansion succeed. For every configuration whose
interpolated view has no `variables` key, `rawToJSON` is not applied: `decodeConfig` succeeds
exactly when the decoder and the home expansion do, and the variables are the ones the decoder
set; with the libraries `stdLib` they are the value of `variables` in the raw view, as it is. -/
theorem decodeConfig_normalises_variables (lib : Lib) (c : ResourceConfig)
    (hkeys : keysDistinct c.Config) :
    (∀ vars, mapIndex c.Config "variables" = some vars →
        mapIndex (mergedConfig c) "variables" = some vars
          ∧ (∀ m, decodeConfig lib c = .ok m → rawToJSON vars = .ok m.Variables)
          ∧ (∀ e, rawToJSON vars = .error e → ∃ e1, decodeConfig lib c = .error e1)
          ∧ (∀ mk v d, lib.Decode (mergedConfig c) = .ok mk → rawToJSON vars = .ok v →
              lib.Expand mk.Directory = .ok d →
              decodeConfig lib c = .ok ⟨d, mk.Target, v⟩))
      ∧ (mapIndex c.Config "variables" = none →
          (∀ m, decodeConfig lib c = .ok m →
              ∃ mk, lib.Decode (mergedConfig c) = .ok mk ∧ m.Variables = mk.Variables)
            ∧ (∀ mk d, lib.Decode (mergedConfig c) = .ok mk →
                lib.Expand mk.Directory = .ok d →
                decodeConfig lib c = .ok ⟨d, mk.Target, mk.Variables⟩)
            ∧ (∀ home raw m, keysDistinct c.Raw → mapIndex c.Raw "variables" = some raw →
                decodeConfig (stdLib home) c = .ok m → m.Variables = raw)) := by
  have hnone : ∀ (l : Lib), mapIndex c.Config "variables" = none →
      ∀ m, decodeConfig l c = .ok m →
        ∃ mk, l.Decode (mergedConfig c) = .ok mk ∧ m.Variables = mk.Variables := by
    intro l habs m hm
    unfold decodeConfig at hm
    cases hd : l.Decode (mergedConfig c) with
    | error e => rw [hd] at hm; cases hm
    | ok mk =>
      rw [hd] at hm
      dsimp only at hm
      rw [collectVariables_absent c mk habs] at hm
      dsimp only at hm
      cases he : l.Expand mk.Directory with
      | error e => rw [he] at hm; cases hm
      | ok d => rw [he] at hm; cases hm; exact ⟨mk, rfl, rfl⟩
  refine ⟨?_, ?_⟩
  · intro vars hvars
    have hcv : ∀ mk, collectVariables c mk =
        match rawToJSON vars with
        | .error e => .error ("Error parsing the variables: " ++ e)
        | .ok v => .ok { mk with Variables := v } := by
      intro mk
      unfold collectVariables
      rw [hvars]
    refine ⟨mapIndex_copyInto_present c.Config _ _ vars hkeys hvars, ?_, ?_, ?_⟩
    · intro m hm
      unfold decodeConfig at hm
      cases hd : lib.Decode (mergedConfig c) with
      | error e => rw [hd] at hm; cases hm
      | ok mk =>
        rw [hd] at hm
        dsimp only at hm
        rw [hcv] at hm
        cases hr : rawToJSON vars with
        | error e => rw [hr] at hm; cases hm
        | ok v =>
          rw [hr] at hm
          dsimp only at hm
          cases he : lib.Expand mk.Directory with
          | error e => rw [he] at hm; cases hm
          | ok d => rw [he] at hm; cases hm; rfl
    · intro e he
      unfold decodeConfig
      cases hd : lib.Decode (mergedConfig c) with
      | error e0 => exact ⟨e0, rfl⟩
      | ok mk =>
        dsimp only
        rw [hcv, he]
        exact ⟨_, rfl⟩
    · intro mk v d hd hr he
      unfold decodeConfig
      rw [hd]
      dsimp only
      rw [hcv, hr]
      dsimp only
      rw [he]
  · intro habs
    refine ⟨hnone lib habs, ?_, ?_⟩
    · intro mk d hd he
      unfold decodeConfig
      rw [hd]
      dsimp only
      rw [collectVariables_absent c mk habs]
      dsimp only
      rw [he]
    · intro home raw m hraw hv hm
      obtain ⟨mk, hdec, hvars⟩ := hnone (stdLib home) habs m hm
      have hmerged : mapIndex (mergedConfig c) "variables" = some raw := by
        unfold mergedConfig
        rw [mapIndex_copyInto_absent c.Config _ _ (mapIndex_none_keys _ _ habs)]
        exact mapIndex_copyInto_present c.Raw _ _ raw hraw hv
      have hmk := (mapstructureDecode_ok_inv (mergedConfig c) mk hdec).2.2
      rw [hvars, hmk, fieldValue_present _ _ raw hmerged]
      rfl

/-- C6, amended, at the configuration whose variables are `[{env: "prod"}]` in both views,
and at the one whose raw view alone has `variables`. -/
theorem decodeConfig_normalises_variables_witness :
    keysDistinct prodConfig.Config
      ∧ mapIndex prodConfig.Config "variables" = some (.mapList [[("env", .str "prod")]])
      ∧ decodeConfig (stdLib (.ok "/home/tf")) prodConfig
          = .ok ⟨"site", "all", .map [("env", .str "prod")]⟩
      ∧ rawToJSON (.mapList [[("env", .str "prod")]]) = .ok (.map [("env", .str "prod")])
      ∧ keysDistinct rawOnlyConfig.Config
      ∧ mapIndex rawOnlyConfig.Config "variables" = none
      ∧ decodeConfig (stdLib (.ok "/home/tf")) rawOnlyConfig
          = .ok ⟨"", "", .mapList [[("a", .str "1")]]⟩ :=
  have hk : keysDistinct prodConfig.Config := by
    simp [keysDistinct, prodConfig]
  have hk0 : keysDistinct rawOnlyConfig.Config := by
    simp [keysDistinct, rawOnlyConfig]
  have h := (decodeConfig_normalises_variables (stdLib (.ok "/home/tf")) prodConfig hk).1
    (.mapList [[("env", .str "prod")]]) rfl
  have h0 := (decodeConfig_normalises_variables (stdLib (.ok "/home/tf")) rawOnlyConfig hk0).2
    rfl
  ⟨hk, rfl, rfl, h.2.1 ⟨"site", "all", .map [("env", .str "prod")]⟩ rfl, hk0, rfl,
    h0.2.1 ⟨"", "", .mapList [[("a", .str "1")]]⟩ "" rfl rfl⟩

/-- C3. For every configuration that decodes without error into a record with a non-empty
directory and a non-empty target, `Validate` returns no warnings and no errors; for every
configuration that decodes into a record whose directory or target is empty, and for every
configuration that does not decode, it returns no warnings and at least one error; with the
libraries `stdLib`, a configuration from which `directory` or `target` has been removed (no
key of the merged configuration is that name, in whatever case of the letters) or in which
it is empty (the empty string or `nil`) is such a configuration. -/
theorem Validate_required_fields (lib : Lib) (c : ResourceConfig) :
    (∀ m, decodeConfig lib c = .ok m → m.Directory ≠ "" → m.Target ≠ "" →
        Validate lib c = ([], []))
      ∧ (∀ m, decodeConfig lib c = .ok m → m.Directory = "" ∨ m.Target = "" →
          (Validate lib c).1 = [] ∧ 1 ≤ (Validate lib c).2.length)
      ∧ (∀ e, decodeConfig lib c = .error e → Validate lib c = ([], [e]))
      ∧ (∀ home,
          fieldEmpty (mergedConfig c) "directory" ∨ fieldEmpty (mergedConfig c) "target" →
          (Validate (stdLib home) c).1 = [] ∧ 1 ≤ (Validate (stdLib home) c).2.length) := by
  have hempty : ∀ (l : Lib) (m : Makefile), decodeConfig l c = .ok m →
      m.Directory = "" ∨ m.Target = "" →
      (Validate l c).1 = [] ∧ 1 ≤ (Validate l c).2.length := by
    intro l m hm hor
    unfold Validate
    rw [hm]
    refine ⟨rfl, ?_⟩
    dsimp only
    by_cases hd : m.Directory = "" <;> by_cases ht : m.Target = ""
    · simp [hd, ht]
    · simp [hd, ht]
    · simp [hd, ht]
    · rcases hor with h | h
      · exact absurd h hd
      · exact absurd h ht
  refine ⟨?_, hempty lib, ?_, ?_⟩
  · intro m hm hd ht
    unfold Validate
    rw [hm]
    simp [hd, ht]
  · intro e he
    unfold Validate
    rw [he]
  · intro home hor
    cases hm : decodeConfig (stdLib home) c with
    | error e =>
      unfold Validate
      rw [hm]
      exact ⟨rfl, Nat.le_refl 1⟩
    | ok m =>
      apply hempty (stdLib home) m hm
      obtain ⟨mk, hdec, htarget, hexp⟩ := decodeConfig_ok_inv (stdLib home) c m hm
      obtain ⟨hD, hT, _⟩ := mapstructureDecode_ok_inv (mergedConfig c) mk hdec
      rcases hor with h | h
      · left
        have hdir : mk.Directory = "" := by rw [hD, stringField_empty _ _ (by decide) h]
        rw [hdir] at hexp
        have : homedirExpand home "" = .ok m.Directory := hexp
        rw [homedirExpand_empty] at this
        exact (Except.ok.inj this).symm
      · right
        rw [htarget, hT, stringField_empty _ _ (by decide) h]

/-- C3, at the configurations of the two tests and at one whose directory key is written
`Directory`: the good one yields no warnings and no errors, the empty one no warnings and two
errors, and the one with the capital letter no warnings and no errors. -/
theorem Validate_required_fields_witness :
    Validate (stdLib (.ok "/home/tf")) goodConfig = ([], [])
      ∧ ((Validate (stdLib (.ok "/home/tf")) missingConfig).1 = []
          ∧ 1 ≤ (Validate (stdLib (.ok "/home/tf")) missingConfig).2.length)
      ∧ Validate (stdLib (.ok "/home/tf")) missingConfig
          = ([], ["A directory is required.", "A target is required."])
      ∧ Validate (stdLib (.ok "/home/tf")) capitalKeyConfig = ([], []) :=
  ⟨(Validate_required_fields (stdLib (.ok "/home/tf")) goodConfig).1
      ⟨"/home/tf/infrastructure", "provision", .list [.str "foo: bar"]⟩ rfl
      (by decide) (by decide),
   (Validate_required_fields (stdLib (.ok "/home/tf")) missingConfig).2.2.2
      (.ok "/home/tf") (Or.inl (Or.inl (fun _ hk => nomatch hk))),
   rfl,
   (Validate_required_fields (stdLib (.ok "/home/tf")) capitalKeyConfig).1
      ⟨"site", "all", .null⟩ rfl (by decide) (by decide)⟩

/-! ## Claims about `Apply` -/

theorem appendVariables_strings (svars : List (String × String)) : ∀ acc : List String,
    appendVariables acc (svars.map (fun kv => (kv.1, Value.str kv.2)))
      = some (acc ++ svars.map assignment) := by
  induction svars with
  | nil => intro acc; simp [appendVariables]
  | cons kv rest ih =>
    intro acc
    simp only [List.map_cons, appendVariables, ih, assignment, List.append_assoc,
      List.singleton_append]

/-- A run of `Apply` whose configuration decodes and whose argument vector is built. -/
theorem Apply_launched (lib : Lib) (launch : Launcher) (c : ResourceConfig) (m : Makefile)
    (args : List String) (hdec : decodeConfig lib c = .ok m) (hargs : makeArgs m = some args) :
    (Apply lib launch c).2 =
        [Event.pipe, Event.goCopyOutput,
          Event.output ("Executing: " ++ fullCommand m args),
          Event.run m.Directory "make" args, Event.closePipe,
          Event.copyDone (launch m.Directory "make" args).piped]
      ∧ (Apply lib launch c).1 =
        match (launch m.Directory "make" args).err with
        | some err => .returned (some (.command (fullCommand m args) err
            (capture (newBoundedSink maxBufSize)
              ((launch m.Directory "make" args).arrival.map Prod.snd)).contents))
        | none => .returned none := by
  unfold Apply
  rw [hdec]
  dsimp only
  rw [hargs]
  dsimp only
  cases (launch m.Directory "make" args).err <;> exact ⟨rfl, rfl⟩

/-- C4. For every decoded request whose variables are a mapping of string keys to string
values, the one child process `Apply` starts is `make`, run in the decoded directory, and its
argument vector is the target followed by exactly one element `key=value` for each variable
and nothing else, so its length is one plus the number of variables. -/
theorem Apply_argument_vector (lib : Lib) (launch : Launcher) (c : ResourceConfig)
    (m : Makefile) (svars : List (String × String))
    (hdec : decodeConfig lib c = .ok m) (hvars : m.Variables = stringVariables svars) :
    makeArgs m = some (m.Target :: svars.map assignment)
      ∧ spawned (Apply lib launch c).2 = [m.Target :: svars.map assignment]
      ∧ Event.run m.Directory "make" (m.Target :: svars.map assignment) ∈ (Apply lib launch c).2
      ∧ (m.Target :: svars.map assignment).head? = some m.Target
      ∧ (m.Target :: svars.map assignment).length = 1 + svars.length := by
  have hargs : makeArgs m = some (m.Target :: svars.map assignment) := by
    unfold makeArgs
    rw [hvars]
    unfold stringVariables
    dsimp only
    rw [appendVariables_strings]
    rfl
  obtain ⟨hsteps, _⟩ := Apply_launched lib launch c m _ hdec hargs
  refine ⟨hargs, ?_, ?_, rfl, ?_⟩
  · rw [hsteps]
    rfl
  · rw [hsteps]
    simp
  · simp [Nat.add_comm]

/-- C4, at the configuration with target `all` and the one variable `env` set to `prod`. -/
theorem Apply_argument_vector_witness :
    decodeConfig (stdLib (.ok "/home/tf")) prodConfig
        = .ok ⟨"site", "all", .map [("env", .str "prod")]⟩
      ∧ spawned (Apply (stdLib (.ok "/home/tf")) quietSuccess prodConfig).2
        = [["all", "env=prod"]] :=
  ⟨rfl, (Apply_argument_vector (stdLib (.ok "/home/tf")) quietSuccess prodConfig
      ⟨"site", "all", .map [("env", .str "prod")]⟩ [("env", "prod")] rfl rfl).2.1⟩

/-- C5 does not hold of the code: for the configuration with target `all` and the variable
`env=prod` the child process is `make all env=prod`, while the line sent to the output sink and
the command line in the returned failure are `make all all env=prod`, with the target
twice. -/
theorem Apply_reports_target_twice :
    Apply (stdLib (.ok "/home/tf")) (failingWith []) prodConfig
        = (.returned (some (.command "make all all env=prod" "exit status 2" [])),
            [Event.pipe, Event.goCopyOutput, Event.output "Executing: make all all env=prod",
              Event.run "site" "make" ["all", "env=prod"], Event.closePipe, Event.copyDone []])
      ∧ "make " ++ String.intercalate " " ["all", "env=prod"] = "make all env=prod"
      ∧ "make all all env=prod" ≠ "make all env=prod" :=
  ⟨rfl, rfl, by decide⟩

/-- C7. For every configuration on which `decodeConfig` fails, `Apply` returns exactly that
error and takes no further step: no pipe is created, nothing is sent to the output sink and no
child process is started. -/
theorem Apply_decode_failure (lib : Lib) (launch : Launcher) (c : ResourceConfig) (e : String)
    (h : decodeConfig lib c = .error e) :
    Apply lib launch c = (.returned (some (.decode e)), [])
      ∧ spawned (Apply lib launch c).2 = []
      ∧ emitted (Apply lib launch c).2 = [] := by
  have hA : Apply lib launch c = (.returned (some (.decode e)), []) := by
    unfold Apply
    rw [h]
  rw [hA]
  exact ⟨rfl, rfl, rfl⟩

/-- C7, at the configuration whose variables are a two-element sequence of mappings. -/
theorem Apply_decode_failure_witness :
    decodeConfig (stdLib (.ok "/home/tf")) twoMapsConfig
        = .error "Error parsing the variables: unexpected input while parsing raw config to JSON"
      ∧ Apply (stdLib (.ok "/home/tf")) quietSuccess twoMapsConfig
        = (.returned (some (.decode
            "Error parsing the variables: unexpected input while parsing raw config to JSON")), []) :=
  ⟨rfl, (Apply_decode_failure (stdLib (.ok "/home/tf")) quietSuccess twoMapsConfig _ rfl).1⟩

/-- C10 does not hold of the code: the configuration without a `variables` key, and the
configuration of the test `TestResourceProvider_Validate_good`, are accepted by `decodeConfig`
and by `Validate`, and `Apply` panics on them in the assertion
`m.Variables.(map[string]interface{})`, after the pipe and the copying goroutine have been
started and before anything is launched; a variable whose value is a number is accepted too,
and `Apply` panics in the assertion `v.(string)`. -/
theorem Apply_panics_on_accepted_config :
    decodeConfig (stdLib (.ok "/home/tf")) noVariablesConfig = .ok ⟨"site", "all", .null⟩
      ∧ Validate (stdLib (.ok "/home/tf")) noVariablesConfig = ([], [])
      ∧ Apply (stdLib (.ok "/home/tf")) quietSuccess noVariablesConfig
          = (.panicked, [Event.pipe, Event.goCopyOutput])
      ∧ Validate (stdLib (.ok "/home/tf")) goodConfig = ([], [])
      ∧ Apply (stdLib (.ok "/home/tf")) quietSuccess goodConfig
          = (.panicked, [Event.pipe, Event.goCopyOutput])
      ∧ decodeConfig (stdLib (.ok "/home/tf")) countConfig
          = .ok ⟨"site", "all", .map [("count", .int 3)]⟩
      ∧ Apply (stdLib (.ok "/home/tf")) quietSuccess countConfig
          = (.panicked, [Event.pipe, Event.goCopyOutput]) :=
  ⟨rfl, rfl, rfl, rfl, rfl, rfl, rfl⟩

/-! ## The bounded sink -/

theorem trailing_length (c : Nat) (s : List Byte) : (trailing c s).length = min s.length c := by
  unfold trailing
  rw [List.length_drop]
  omega

theorem trailing_append (c : Nat) (a b : List Byte) :
    trailing c (trailing c a ++ b) = trailing c (a ++ b) := by
  unfold trailing
  have hk : a.length - c ≤ a.length := Nat.sub_le _ _
  have hsplit : (a ++ b).drop (a.length - c) = a.drop (a.length - c) ++ b :=
    List.drop_append_of_le_length hk
  rw [← hsplit, List.drop_drop]
  congr 1
  simp only [List.length_drop, List.length_append]
  omega

theorem write_stored (b : BoundedSink) (bytes : List Byte) :
    (b.write bytes).1
      = BoundedSink.mk b.capacity (trailing b.capacity (b.storedBytes ++ bytes)) := rfl

theorem contents_mk (c : Nat) (stored : List Byte) :
    (BoundedSink.mk c stored).contents = stored := rfl

theorem capture_stored (chunks : List (List Byte)) : ∀ (c : Nat) (stored : List Byte),
    stored.length ≤ c →
    capture { capacity := c, storedBytes := stored } chunks
      = { capacity := c, storedBytes := trailing c (stored ++ chunks.flatten) } := by
  induction chunks with
  | nil =>
    intro c stored h
    have : stored.length - c = 0 := by omega
    simp [capture, trailing, this]
  | cons chunk rest ih =>
    intro c stored h
    show capture ((BoundedSink.mk c stored).write chunk).1 rest = _
    rw [write_stored]
    rw [ih c _ (by rw [trailing_length]; exact Nat.min_le_right _ _), trailing_append]
    simp [List.append_assoc]

theorem allBytes_cons (chunk : Stream × List Byte) (rest : List (Stream × List Byte)) :
    allBytes (chunk :: rest) = chunk.2 ++ allBytes rest := rfl

theorem allBytes_pair (c1 c2 : Stream × List Byte) : allBytes [c1, c2] = c1.2 ++ c2.2 := by
  simp [allBytes]

theorem drop_replicate_append (n k : Nat) (x : Byte) (l : List Byte) (h : k ≤ n) :
    (List.replicate n x ++ l).drop k = List.replicate (n - k) x ++ l := by
  rw [List.drop_append_of_le_length (by rw [List.length_replicate]; exact h),
    List.drop_replicate]

/-- When the chunks of all streams but one are empty, the bytes are those of that stream. -/
theorem allBytes_single_stream (st : Stream) (chunks : List (Stream × List Byte))
    (h : ∀ other, other ≠ st → bytesOf other chunks = []) :
    allBytes chunks = bytesOf st chunks := by
  induction chunks with
  | nil => rfl
  | cons chunk rest ih =>
    obtain ⟨s0, bytes⟩ := chunk
    by_cases hs : s0 = st
    · have hrest : ∀ other, other ≠ st → bytesOf other rest = [] := by
        intro other hne
        have h1 := h other hne
        have hne2 : ¬ s0 = other := fun e => hne (e.symm.trans hs)
        simpa [bytesOf, List.filter_cons, hne2] using h1
      simp only [bytesOf, List.filter_cons, hs, decide_True, if_true, allBytes_cons]
      rw [ih hrest]
      rfl
    · have h1 := h s0 hs
      have hcons : bytes ++ bytesOf s0 rest = [] := by
        simpa [bytesOf, List.filter_cons, allBytes_cons] using h1
      have hbytes : bytes = [] := (List.append_eq_nil.mp hcons).1
      have hrest : ∀ other, other ≠ st → bytesOf other rest = [] := by
        intro other hne
        have h2 := h other hne
        by_cases ho : s0 = other
        · subst ho
          exact (List.append_eq_nil.mp hcons).2
        · simpa [bytesOf, List.filter_cons, ho] using h2
      simp only [bytesOf, List.filter_cons, hs, decide_False, allBytes_cons, hbytes,
        List.nil_append]
      exact ih hrest

/-- When the child writes to one stream only and its bytes are delivered, the bytes reach the
sink in the order in which the child wrote them. -/
theorem arrival_single_stream (p : ProcResult) (st : Stream)
    (hone : ∀ chunk ∈ p.writes, chunk.1 = st) (hdel : Delivered p) :
    allBytes p.arrival = allBytes p.writes := by
  have hw : ∀ other, other ≠ st → bytesOf other p.writes = [] := by
    intro other hne
    have : p.writes.filter (fun chunk => decide (chunk.1 = other)) = [] := by
      rw [List.filter_eq_nil_iff]
      intro chunk hchunk
      have := hone chunk hchunk
      simp [this, Ne.symm hne]
    simp [bytesOf, this, allBytes]
  have ha : ∀ other, other ≠ st → bytesOf other p.arrival = [] := by
    intro other hne
    rw [hdel other, hw other hne]
  rw [allBytes_single_stream st p.arrival ha, allBytes_single_stream st p.writes hw, hdel st]

/-- C8, as stated, fails: the child writes the byte 1 to its standard output and then the
byte 2 to its standard error, so its combined output is `1 2`; each stream has a copying
goroutine of its own, both bytes are delivered, the one of the standard error first; and the
captured output in the failure is `2 1`, which is not the last bytes of `1 2`. -/
theorem Apply_failure_output_reordered :
    allBytes (overtaken "site" "make" ["all", "env=prod"]).writes = [1, 2]
      ∧ bytesOf .stdout (overtaken "site" "make" ["all", "env=prod"]).arrival
          = bytesOf .stdout (overtaken "site" "make" ["all", "env=prod"]).writes
      ∧ bytesOf .stderr (overtaken "site" "make" ["all", "env=prod"]).arrival
          = bytesOf .stderr (overtaken "site" "make" ["all", "env=prod"]).writes
      ∧ (Apply (stdLib (.ok "/home/tf")) overtaken prodConfig).1
          = .returned (some (.command "make all all env=prod" "exit status 2" [2, 1]))
      ∧ trailing 8192 [1, 2] = [1, 2]
      ∧ ([2, 1] : List Byte) ≠ [1, 2] :=
  ⟨rfl, rfl, rfl, rfl, rfl, by decide⟩

/-- C8, amended. For every run in which the child exits with an error and the writes to the
sink follow one another, the captured output in the failure `Apply` returns is the last
`min (length a) 8192` bytes of `a`, the bytes in the order in which they reach the sink; so
it is never longer than 8192 bytes, and after 20000 bytes it is exactly the final 8192
bytes; and when the child writes to one of its two streams only and its bytes are
delivered, `a` is the sequence the child wrote. -/
theorem Apply_failure_output (lib : Lib) (launch : Launcher) (c : ResourceConfig)
    (m : Makefile) (args : List String) (err : String)
    (hdec : decodeConfig lib c = .ok m) (hargs : makeArgs m = some args)
    (herr : (launch m.Directory "make" args).err = some err) :
    (Apply lib launch c).1 = .returned (some (.command (fullCommand m args) err
        (trailing 8192 (allBytes (launch m.Directory "make" args).arrival))))
      ∧ (trailing 8192 (allBytes (launch m.Directory "make" args).arrival)).length
          = min (allBytes (launch m.Directory "make" args).arrival).length 8192
      ∧ (trailing 8192 (allBytes (launch m.Directory "make" args).arrival)).length ≤ 8192
      ∧ ((allBytes (launch m.Directory "make" args).arrival).length = 20000 →
          trailing 8192 (allBytes (launch m.Directory "make" args).arrival)
            = (allBytes (launch m.Directory "make" args).arrival).drop 11808
          ∧ (trailing 8192 (allBytes (launch m.Directory "make" args).arrival)).length = 8192)
      ∧ (∀ st, (∀ chunk ∈ (launch m.Directory "make" args).writes, chunk.1 = st) →
          Delivered (launch m.Directory "make" args) →
          (Apply lib launch c).1 = .returned (some (.command (fullCommand m args) err
            (trailing 8192 (allBytes (launch m.Directory "make" args).writes))))) := by
  obtain ⟨_, hout⟩ := Apply_launched lib launch c m args hdec hargs
  have hmain : (Apply lib launch c).1 = .returned (some (.command (fullCommand m args) err
      (trailing 8192 (allBytes (launch m.Directory "make" args).arrival)))) := by
    rw [hout, herr]
    dsimp only
    have hcap : newBoundedSink maxBufSize = { capacity := 8192, storedBytes := [] } := rfl
    rw [hcap, capture_stored _ 8192 [] (Nat.zero_le _), List.nil_append, contents_mk]
    rfl
  refine ⟨hmain, trailing_length _ _, ?_, ?_, ?_⟩
  · rw [trailing_length]
    exact Nat.min_le_right _ _
  · intro hlen
    refine ⟨?_, ?_⟩
    · unfold trailing
      rw [hlen]
    · rw [trailing_length, hlen]
      rfl
  · intro st hone hdel
    rw [hmain, arrival_single_stream _ st hone hdel]

/-- C8, amended, at a child process that writes 12000 bytes to its standard output and 8000
bytes to its standard error, 20000 in all: the captured output is the final 8192 bytes, the
last 192 bytes of the first chunk and the whole second chunk. -/
theorem Apply_failure_output_witness :
    decodeConfig (stdLib (.ok "/home/tf")) prodConfig
        = .ok ⟨"site", "all", .map [("env", .str "prod")]⟩
      ∧ (Apply (stdLib (.ok "/home/tf")) flooding prodConfig).1
        = .returned (some (.command "make all all env=prod" "exit status 2"
            (List.replicate 192 1 ++ List.replicate 8000 2)))
      ∧ (List.replicate 192 (1 : Byte) ++ List.replicate 8000 2).length = 8192 :=
  have h := Apply_failure_output (stdLib (.ok "/home/tf")) flooding prodConfig
    ⟨"site", "all", .map [("env", .str "prod")]⟩ ["all", "env=prod"] "exit status 2"
    rfl rfl rfl
  have hbytes : allBytes (flooding "site" "make" ["all", "env=prod"]).arrival
      = List.replicate 12000 1 ++ List.replicate 8000 2 :=
    allBytes_pair (Stream.stdout, List.replicate 12000 1) (Stream.stderr, List.replicate 8000 2)
  have hdrop : (List.replicate 12000 (1 : Byte) ++ List.replicate 8000 2).drop 11808
      = List.replicate 192 1 ++ List.replicate 8000 2 :=
    drop_replicate_append 12000 11808 1 (List.replicate 8000 2) (by decide)
  have hlen : (allBytes (flooding "site" "make" ["all", "env=prod"]).arrival).length = 20000 := by
    rw [hbytes, List.length_append, List.length_replicate, List.length_replicate]
  ⟨rfl, by
    have h1 := h.1
    rw [(h.2.2.2.1 hlen).1, hbytes, hdrop] at h1
    exact h1, by rw [List.length_append, List.length_replicate, List.length_replicate]⟩

end makefile
